import Mathlib

/-
Verification of the text-extraction layer, tool executors and protocol
dispatcher of the gemini-mcp-rust server.

The Rust source is shallowly embedded: strings are `List Char`, `usize`/`u32`
are `Nat`, `f32` scores are `ℚ` (decimal literals are exact in both readings
for the values exercised here), and the one place where `f32` rounding is
observable — the consensus threshold `(ideas.len() as f32 * 0.3).ceil()` —
is embedded by an exact emulation of IEEE-754 single-precision
round-to-nearest-even.
-/

set_option maxHeartbeats 1000000

namespace GeminiMcp

/-! ## Character classes and basic text helpers

These model the behaviour of Rust's `char::is_whitespace`, `str::trim`,
regex `\s` / `\d` / `[a-zA-Z]` / word characters, restricted to the ASCII
range (all inputs considered in this development are ASCII). -/

/-- ASCII whitespace, as matched by `str::trim` and regex `\s`. -/
def wsp (c : Char) : Bool :=
  c = ' ' || c = '\t' || c = '\n' || c = '\r' || c = '\x0b' || c = '\x0c'

/-- ASCII decimal digit, as matched by regex `\d`. -/
def isDig (c : Char) : Bool := '0' ≤ c && c ≤ '9'

/-- ASCII letter, as matched by regex `[a-zA-Z]`. -/
def alphaCh (c : Char) : Bool := ('a' ≤ c && c ≤ 'z') || ('A' ≤ c && c ≤ 'Z')

/-- Regex word character `[A-Za-z0-9_]`, used for `\b` boundaries. -/
def wordCh (c : Char) : Bool := alphaCh c || isDig c || c = '_'

/-- Lowercasing a single character (ASCII case of Rust `to_lowercase`). -/
def lowerCh (c : Char) : Char := c.toLower

/-- Lowercase a string (Rust `str::to_lowercase` on ASCII input). -/
def lower (l : List Char) : List Char := l.map lowerCh

/-- Drop leading whitespace. -/
def trimL (l : List Char) : List Char := l.dropWhile wsp

/-- Drop trailing whitespace. -/
def trimR (l : List Char) : List Char := (l.reverse.dropWhile wsp).reverse

/-- Rust `str::trim`: drop leading and trailing whitespace. -/
def trim (l : List Char) : List Char := trimR (trimL l)

/-- Test whether `pat` is a prefix of `l`. -/
def isPrefB : List Char → List Char → Bool
  | [], _ => true
  | _ :: _, [] => false
  | p :: ps, x :: xs => p = x && isPrefB ps xs

/-- Substring search: Rust `str::contains(pat)`. -/
def containsB (hay pat : List Char) : Bool :=
  match hay with
  | [] => isPrefB pat []
  | _ :: rest => isPrefB pat hay || containsB rest pat

/-- Test whether `pat` is a prefix of `l`, where `pat` is given lowercased
already; mirrors `starts_with` on a lowercased line. -/
def startsWithB (l pat : List Char) : Bool := isPrefB pat l

/-- Rust `str::split(c)`: split at every occurrence of `c`; the result always
has one more piece than there are occurrences of `c`. -/
def splitOnCh (c : Char) : List Char → List (List Char)
  | [] => [[]]
  | x :: xs =>
    if x = c then [] :: splitOnCh c xs
    else
      match splitOnCh c xs with
      | s :: ss => (x :: s) :: ss
      | [] => [[x]]

/-- Strip one trailing carriage return, as Rust `str::lines` does per line. -/
def stripCr (l : List Char) : List Char :=
  match l.reverse with
  | '\r' :: rest => rest.reverse
  | _ => l

/-- Rust `str::lines`: split on `'\n'`, dropping a single trailing empty
piece (so a final newline does not produce an empty last line), and stripping
one trailing `'\r'` from each line. -/
def linesOf (text : List Char) : List (List Char) :=
  let ps := splitOnCh '\n' text
  let ps := if ps.getLast? = some [] then ps.dropLast else ps
  ps.map stripCr

/-- Fuel-driven worker for `splitOnStr`. -/
def splitOnStrAux (sep : List Char) : Nat → List Char → List Char → List (List Char)
  | 0, acc, l => [acc.reverse ++ l]
  | _ + 1, acc, [] => [acc.reverse]
  | f + 1, acc, x :: xs =>
    if isPrefB sep (x :: xs) then
      acc.reverse :: splitOnStrAux sep f [] ((x :: xs).drop sep.length)
    else
      splitOnStrAux sep f (x :: acc) xs

/-- Rust `str::split(sep)` for a non-empty string separator (used with
`"\n\n"`): non-overlapping, left to right. -/
def splitOnStr (sep l : List Char) : List (List Char) :=
  splitOnStrAux sep (l.length + 1) [] l

/-- Decimal digit character for `d < 10`. -/
def digitCh (d : Nat) : Char :=
  (['0', '1', '2', '3', '4', '5', '6', '7', '8', '9']).getD (d % 10) '0'

/-- Fuel-driven worker for `natDigits`. -/
def natDigitsAux : Nat → Nat → List Char
  | 0, _ => []
  | f + 1, n => if n < 10 then [digitCh n] else natDigitsAux f (n / 10) ++ [digitCh (n % 10)]

/-- Decimal representation of a natural number, as printed by Rust's
`Display` for unsigned integers (used for `format!` of `num_ideas`). -/
def natDigits (n : Nat) : List Char := natDigitsAux (n + 1) n

/-! ## IEEE-754 single-precision emulation for the consensus threshold

The Rust source computes the consensus threshold as
`(ideas.len() as f32 * 0.3).ceil() as usize`.  `0.3f32` is exactly
`10066330 / 2 ^ 25`; the conversion of the length and the product are rounded
to 24 significant bits, round to nearest, ties to even.  The emulation below
is exact for every length below `2 ^ 64`. -/

/-- Floor of the base-2 logarithm of a positive `n < 2 ^ 64`. -/
def log2Below (n : Nat) : Nat :=
  ((List.range 64).filter (fun i => 2 ^ (i + 1) ≤ n)).length

/-- Round `n / 2 ^ s` to the nearest integer, ties to even (for `s ≥ 1`). -/
def rndHalfEven (n s : Nat) : Nat :=
  let q := n / 2 ^ s
  let r := n % 2 ^ s
  let h := 2 ^ s / 2
  if r < h then q else if h < r then q + 1 else if q % 2 = 0 then q else q + 1

/-- Round a natural number to 24 significant bits: the exact value of
`n as f32` under round-to-nearest-even. -/
def roundSig24 (n : Nat) : Nat :=
  let l := log2Below n
  if l ≤ 23 then n else rndHalfEven n (l - 23) * 2 ^ (l - 23)

/-- The consensus threshold `(len as f32 * 0.3).ceil() as usize`, emulated
exactly: the scaled integer `roundSig24 len * 10066330` equals the exact
product times `2 ^ 25`; it is rounded to 24 significant bits and then the
ceiling is taken. -/
def thresholdF32 (len : Nat) : Nat :=
  if len = 0 then 0
  else
    let p := roundSig24 len * 10066330
    let l := log2Below p
    if l ≤ 23 then (p + (2 ^ 25 - 1)) / 2 ^ 25
    else
      let s := l - 23
      let m := rndHalfEven p s
      if 25 ≤ s then m * 2 ^ (s - 25)
      else (m + (2 ^ (25 - s) - 1)) / 2 ^ (25 - s)

/-! ## Brainstorm tool: `parse_ideas` and `extract_consensus_themes`
(src/tools/brainstorm.rs) -/

/-- An idea parsed from the model's text (`struct Idea`). -/
structure Idea where
  id : Nat
  text : List Char
  deriving DecidableEq

/-- A consensus theme (`struct ConsensusTheme`). -/
structure ConsensusTheme where
  theme : List Char
  frequency : Nat
  related_ideas : List Nat
  deriving DecidableEq

/-- Matcher for `\s*(.+)$`, returning capture group 2: the greedy `\s*` gives
back one character when the remainder is non-empty but all whitespace. -/
def tailMatch (r : List Char) : Option (List Char) :=
  let k := (r.takeWhile wsp).length
  if r.isEmpty then none
  else if k < r.length then some (r.drop k)
  else some (r.drop (k - 1))

/-- Matcher for the idea-line regex `^\s*(\d+)\.?\s*(.+)$` of `parse_ideas`,
returning capture group 2 on success.  Backtracking is resolved exactly: the
optional dot is given back when nothing matchable follows it, and when the
line ends right after the digits the greedy `\d+` gives back its last digit
so that `(.+)` can match it. -/
def ideaLineMatch (line : List Char) : Option (List Char) :=
  let l1 := line.dropWhile wsp
  let ds := l1.takeWhile isDig
  let r := l1.dropWhile isDig
  if ds.isEmpty then none
  else
    match r with
    | [] => if 2 ≤ ds.length then (ds.getLast?).map (fun d => [d]) else none
    | '.' :: r' =>
      match tailMatch r' with
      | some g => some g
      | none => tailMatch r
    | _ => tailMatch r

/-- Loop state of `parse_ideas`: the ideas collected so far in reverse order
(most recent first) together with the next sequential id. -/
def parseIdeasGo : List Idea → Nat → List (List Char) → List Idea
  | rev, _, [] => rev
  | rev, id, line :: rest =>
    match ideaLineMatch line with
    | some g => parseIdeasGo ({ id := id, text := trim g } :: rev) (id + 1) rest
    | none =>
      if (trim line).isEmpty then parseIdeasGo rev id rest
      else
        match rev with
        | last :: others =>
          parseIdeasGo ({ last with text := last.text ++ ' ' :: trim line } :: others) id rest
        | [] => parseIdeasGo rev id rest

/-- `parse_ideas`: scan the text line by line; a line matching the idea-line
regex starts a new idea with the next sequential id; any other non-blank line
is appended to the most recent idea's text after a single space. -/
def parse_ideas (text : List Char) : List Idea :=
  (parseIdeasGo [] 1 (linesOf text)).reverse

/-- Maximal runs of characters satisfying `p`, in order of occurrence. -/
def runsOf (p : Char → Bool) (l : List Char) : List (List Char) :=
  (l.foldr (fun c acc =>
      if p c then
        match acc with
        | r :: rs => (c :: r) :: rs
        | [] => [[c]]
      else [] :: acc) []).filter (fun r => !r.isEmpty)

/-- The matches of `\b[a-zA-Z]{4,}\b` in the lowercased text, in order: a
maximal word-character run matches exactly when it is purely alphabetic and
has length at least 4 (shorter or mixed runs fail the word-boundary or the
character class). -/
def tokensOf (text : List Char) : List (List Char) :=
  (runsOf wordCh (lower text)).filter (fun r => r.all alphaCh && 4 ≤ r.length)

/-- Keep the first occurrence of each element, dropping later duplicates;
mirrors the `seen_in_idea` hash-set guard of `extract_consensus_themes`. -/
def dedupFirstAux (seen : List (List Char)) : List (List Char) → List (List Char)
  | [] => []
  | t :: ts =>
    if t ∈ seen then dedupFirstAux seen ts else t :: dedupFirstAux (t :: seen) ts

/-- Entry point of `dedupFirstAux` with nothing seen yet. -/
def dedupFirst (ts : List (List Char)) : List (List Char) := dedupFirstAux [] ts

/-- The `keyword_to_ideas` map, modelled as an association list in first
insertion order (the Rust `HashMap` iteration order is arbitrary; every
per-entry property proved below is order-independent). -/
abbrev ThemeMap := List (List Char × List Nat)

/-- `keyword_to_ideas.entry(word).or_insert_with(Vec::new).push(idea.id)`. -/
def assocAppend : ThemeMap → List Char → Nat → ThemeMap
  | [], k, v => [(k, [v])]
  | (k', vs) :: rest, k, v =>
    if k' = k then (k', vs ++ [v]) :: rest else (k', vs) :: assocAppend rest k v

/-- Record one idea's deduplicated tokens into the map. -/
def addIdea (m : ThemeMap) (i : Idea) : ThemeMap :=
  (dedupFirst (tokensOf i.text)).foldl (fun m' t => assocAppend m' t i.id) m

/-- Build the `keyword_to_ideas` map over all ideas, in order. -/
def keywordToIdeas (ideas : List Idea) : ThemeMap :=
  ideas.foldl addIdea []

/-- Look a word up in the map, returning its idea-id list (empty when the
word has no entry); specification device for reasoning about the map. -/
def lookVal : ThemeMap → List Char → List Nat
  | [], _ => []
  | (k', vs) :: rest, k => if k' = k then vs else lookVal rest k

/-- The `stop_words` list of `extract_consensus_themes`. -/
def stopWords : List (List Char) :=
  (["that", "this", "with", "from", "have", "will", "would", "could",
    "should", "about", "which", "their", "there", "these", "those",
    "been", "being", "were", "when", "where", "while", "after", "before",
    "using", "make", "more", "into", "over", "such", "also", "some",
    "than", "them", "then", "very", "well", "only", "just", "even"]).map
    String.toList

/-- Stable insertion for the sort of themes by frequency, descending
(`themes.sort_by(|a, b| b.frequency.cmp(&a.frequency))` is a stable sort). -/
def insertFreqDesc (t : ConsensusTheme) : List ConsensusTheme → List ConsensusTheme
  | [] => [t]
  | u :: us =>
    if t.frequency < u.frequency then u :: insertFreqDesc t us else t :: u :: us

/-- Stable sort of themes by frequency, descending. -/
def sortFreqDesc : List ConsensusTheme → List ConsensusTheme
  | [] => []
  | t :: ts => insertFreqDesc t (sortFreqDesc ts)

/-- `extract_consensus_themes`: build the keyword map, keep entries whose
idea count reaches the (f32-computed) threshold and whose word is not a stop
word, sort by frequency descending, and return the top 10. -/
def extract_consensus_themes (ideas : List Idea) : List ConsensusTheme :=
  let m := keywordToIdeas ideas
  let threshold := thresholdF32 ideas.length
  let themes := (m.filter (fun e =>
      threshold ≤ e.2.length && !(stopWords.contains e.1))).map
    (fun e => { theme := e.1, frequency := e.2.length, related_ideas := e.2 })
  (sortFreqDesc themes).take 10

/-! ## Analyze tool helpers: `extract_field` and `extract_score`
(src/tools/analyze.rs) -/

/-- `extract_field`: find the first line whose lowercased form contains the
keyword and return, trimmed, the piece of that line between its first and
second `:` (Rust `line.split(':').nth(1).unwrap_or("")`), or `none` when no
line contains the keyword. -/
def extract_field (text field : List Char) : Option (List Char) :=
  ((linesOf text).find? (fun line => containsB (lower line) field)).map
    (fun line => trim (((splitOnCh ':' line).get? 1).getD []))

/-- Accumulate a digit string into a natural number. -/
def digitsToNat (l : List Char) : Nat :=
  l.foldl (fun a c => a * 10 + (c.toNat - 48)) 0

/-- The digits after the decimal point of a string of shape `\d+\.?\d*`. -/
def fracDigits (l : List Char) : List Char :=
  match l.dropWhile isDig with
  | '.' :: t => t.takeWhile isDig
  | _ => []

/-- Parse a string of shape `\d+\.?\d*` into an exact rational; embeds the
`str::parse::<f32>` of the captured score (every score compared in this
development denotes the same decimal on both sides). -/
def parseDec (l : List Char) : ℚ :=
  (digitsToNat (l.takeWhile isDig) : ℚ) +
    (digitsToNat (fracDigits l) : ℚ) / (10 : ℚ) ^ (fracDigits l).length

/-- Match the first alternative `(\d+\.?\d*)/10` of the score regex at the
start of `t`, returning capture group 1.  The digit runs are maximal, and the
literal `/10` must follow immediately. -/
def scoreAlt1 (t : List Char) : Option (List Char) :=
  let ds1 := t.takeWhile isDig
  let r := t.dropWhile isDig
  if ds1.isEmpty then none
  else if isPrefB ("/10".toList) r then some ds1
  else
    match r with
    | '.' :: r2 =>
      if isPrefB ("/10".toList) (r2.dropWhile isDig) then
        some (ds1 ++ '.' :: r2.takeWhile isDig)
      else none
    | _ => none

/-- Match the second alternative `score[:\s]+(\d+\.?\d*)` of the score regex
at the start of `t` (case-sensitively: the regex has no `(?i)` flag),
returning capture group 2. -/
def scoreAlt2 (t : List Char) : Option (List Char) :=
  if isPrefB ("score".toList) t then
    let t2 := t.drop 5
    let seps := t2.takeWhile (fun c => c = ':' || wsp c)
    let t3 := t2.dropWhile (fun c => c = ':' || wsp c)
    let ds1 := t3.takeWhile isDig
    if seps.isEmpty || ds1.isEmpty then none
    else
      match t3.dropWhile isDig with
      | '.' :: t4 => some (ds1 ++ '.' :: t4.takeWhile isDig)
      | _ => some ds1
  else none

/-- Scan left to right for the leftmost match of either score alternative
(`Regex::captures` returns the leftmost match). -/
def scanScore : List Char → Option (List Char)
  | [] => none
  | c :: rest =>
    match scoreAlt1 (c :: rest) with
    | some g => some g
    | none =>
      match scoreAlt2 (c :: rest) with
      | some g => some g
      | none => scanScore rest

/-- `extract_score`: apply the regex `(\d+\.?\d*)/10|score[:\s]+(\d+\.?\d*)`
to the text and parse the first captured number. -/
def extract_score (text : List Char) : Option ℚ :=
  (scanScore text).map parseDec

/-! ## Search tool: answer/result extraction and the ranking pipeline
(src/tools/query.rs) -/

/-- A search source (`struct Source`). -/
structure Source where
  id : List Char
  title : List Char
  content : List Char
  deriving DecidableEq

/-- Ranking criteria accepted by the search tool (`enum RankingCriteria`). -/
inductive RankingCriteria
  | relevance
  | recency
  | popularity
  deriving DecidableEq

/-- A per-source search result (`struct SourceResult`). -/
structure SourceResult where
  source_id : List Char
  source_title : List Char
  excerpt : List Char
  relevance_score : ℚ
  deriving DecidableEq

/-- Join pieces with a separator (Rust `slice::join`). -/
def joinWith (sep : List Char) : List (List Char) → List Char
  | [] => []
  | [x] => x
  | x :: xs => x ++ sep ++ joinWith sep xs

/-- `extract_answer`: return, trimmed, the piece between the first and second
`:` of the first line that starts (lowercased) with `answer:`; otherwise fall
back to the first three lines joined by single spaces, trimmed. -/
def extract_answer (text : List Char) : List Char :=
  match (linesOf text).find? (fun line => startsWithB (lower line) ("answer:".toList)) with
  | some line => trim (((splitOnCh ':' line).get? 1).getD [])
  | none => trim (joinWith [' '] ((linesOf text).take 3))

/-- `extract_excerpt_for_source`: the first `"\n\n"`-separated paragraph
containing the source's title (case-insensitively), truncated to 200
characters, falling back to the first 100 characters of the source's own
content. -/
def extract_excerpt_for_source (text : List Char) (source : Source) : List Char :=
  match (splitOnStr ("\n\n".toList) text).find?
      (fun para => containsB (lower para) (lower source.title)) with
  | some para => para.take 200
  | none => source.content.take 100

/-- `extract_results`: include a source when its title (case-insensitively)
or its id (case-sensitively) occurs in the model's text; every included
result carries the constant placeholder relevance score `0.7`. -/
def extract_results (text : List Char) (sources : List Source) : List SourceResult :=
  sources.filterMap (fun s =>
    if containsB (lower text) (lower s.title) || containsB text s.id then
      some { source_id := s.id, source_title := s.title,
             excerpt := extract_excerpt_for_source text s,
             relevance_score := 7 / 10 }
    else none)

/-- Stable insertion for the descending sort by relevance score
(`results.sort_by(|a, b| b.relevance_score.partial_cmp(&a.relevance_score))`
is a stable sort). -/
def insertScoreDesc (r : SourceResult) : List SourceResult → List SourceResult
  | [] => [r]
  | u :: us =>
    if r.relevance_score < u.relevance_score then u :: insertScoreDesc r us
    else r :: u :: us

/-- Stable sort of search results by relevance score, descending. -/
def sortScoreDesc : List SourceResult → List SourceResult
  | [] => []
  | r :: rs => insertScoreDesc r (sortScoreDesc rs)

/-- The filter / rank / truncate block of search `execute_v2`: drop results
scored below `min_relevance`, sort descending by score in `relevance` mode
(`recency` and `popularity` keep the current order), then truncate to
`max_results`. -/
def rankAndLimit (results : List SourceResult) (minRelevance : Option ℚ)
    (maxResults : Option Nat) (ranking : RankingCriteria) : List SourceResult :=
  let r1 := match minRelevance with
    | some m => results.filter (fun r => m ≤ r.relevance_score)
    | none => results
  let r2 := match ranking with
    | .relevance => sortScoreDesc r1
    | .recency | .popularity => r1
  match maxResults with
  | some mx => r2.take mx
  | none => r2

/-- The extraction / filter / rank / truncate pipeline of the search tool,
from the raw model text to the ordered result list. -/
def searchPipeline (text : List Char) (sources : List Source)
    (minRelevance : Option ℚ) (maxResults : Option Nat)
    (ranking : RankingCriteria) : List SourceResult :=
  rankAndLimit (extract_results text sources) minRelevance maxResults ranking

/-! ## Tool executors, up to their Generation Service call

Each `execute_v2` is embedded by the function computing the first (and only)
generation request it issues — or the validation error raised before any
request.  The network client itself is external; a `GenRequest` records the
prompt, the selected model variant, and the generation configuration handed
to `generate_content`. -/

/-- Caller model preference (`enum ModelPreference`, src/tools/types.rs). -/
inductive ModelPreference
  | pro
  | flash
  deriving DecidableEq

/-- Backend model variant (`enum GeminiModel`, src/gemini/models.rs):
`pro` is the "quality" variant, `flash` the "fast" one. -/
inductive GeminiModel
  | pro
  | flash
  deriving DecidableEq

/-- Caller generation parameters (`struct GenerationParams`). -/
structure GenerationParams where
  temperature : Option ℚ
  max_tokens : Option Nat
  top_p : Option ℚ
  top_k : Option Nat
  deriving DecidableEq

/-- Generation configuration (`struct GenerationConfig`). -/
structure GenerationConfig where
  temperature : Option ℚ
  max_output_tokens : Option Nat
  top_p : Option ℚ
  top_k : Option Nat
  deriving DecidableEq

/-- One call to `client.generate_content(prompt, model, config)`. -/
structure GenRequest where
  prompt : List Char
  model : GeminiModel
  config : Option GenerationConfig
  deriving DecidableEq

/-- The model selection shared verbatim by the brainstorm, search and
analyze executors: `Some(Flash) => Flash, Some(Pro) | None => Pro`. -/
def modelPreferPro : Option ModelPreference → GeminiModel
  | some .flash => GeminiModel.flash
  | some .pro | none => GeminiModel.pro

/-- The summarize executor's model selection:
`Some(Pro) => Pro, Some(Flash) | None => Flash`. -/
def modelPreferFlash : Option ModelPreference → GeminiModel
  | some .pro => GeminiModel.pro
  | some .flash | none => GeminiModel.flash

/-- Summary length (`enum SummaryLength`). -/
inductive SummaryLength
  | brief
  | medium
  | detailed
  deriving DecidableEq

/-- Summary format (`enum SummaryFormat`). -/
inductive SummaryFormat
  | paragraph
  | bulletPoints
  | executive
  | keyPoints
  deriving DecidableEq

/-- Summarize tool input (`struct SummarizeInput`). -/
structure SummarizeInput where
  content : List Char
  length : SummaryLength
  format : SummaryFormat
  focus : Option (List Char)
  model : Option ModelPreference
  params : Option GenerationParams
  deriving DecidableEq

/-- Detail instruction and token budget per summary length. -/
def summarizeDetail : SummaryLength → List Char × Nat
  | .brief => (("Provide a very brief, concise summary (2-3 sentences max).").toList, 256)
  | .detailed =>
    (("Provide a comprehensive, detailed summary covering all key points and nuances.").toList,
      2048)
  | .medium => (("Provide a balanced summary with key points and main themes.").toList, 1024)

/-- Format instruction per summary format. -/
def summarizeFormatIns : SummaryFormat → List Char
  | .bulletPoints => ("\n\nFormat the summary as bullet points.").toList
  | .executive => ("\n\nFormat as an executive summary with clear sections.").toList
  | .keyPoints => ("\n\nExtract and list only the key takeaways.").toList
  | .paragraph => ("\n\nFormat the summary as coherent paragraphs.").toList

/-- Summarize `execute_v2` up to its generation call.  Note: this executor
performs no validation at all — the empty-content and 1M-size checks live
only in the legacy `execute` wrapper — so it always issues a request. -/
def summarize_execute_v2_request (input : SummarizeInput) : Except (List Char) GenRequest :=
  let di := summarizeDetail input.length
  let fi := summarizeFormatIns input.format
  let fo := match input.focus with
    | some f => ("\n\nFocus specifically on: ").toList ++ f
    | none => []
  let prompt := ("Summarize the following content:\n\n").toList ++ input.content ++
    ("\n\n").toList ++ di.1 ++ fi ++ fo
  let model := modelPreferFlash input.model
  Except.ok
    { prompt := prompt, model := model,
      config := some
        { temperature := (input.params.bind (fun p => p.temperature)) <|> some (4 / 10),
          max_output_tokens := (input.params.bind (fun p => p.max_tokens)) <|> some di.2,
          top_p := input.params.bind (fun p => p.top_p),
          top_k := input.params.bind (fun p => p.top_k) } }

/-- Brainstorm tool input (`struct BrainstormInput`); the legacy fields are
carried but ignored by `execute_v2`. -/
structure BrainstormInput where
  prompt : List Char
  num_ideas : Nat
  constraints : Option (List Char)
  extract_consensus : Bool
  model : Option ModelPreference
  params : Option GenerationParams
  claude_thoughts : Option (List Char)
  max_rounds : Option Nat
  deriving DecidableEq

/-- Brainstorm `execute_v2` up to its generation call: validates the idea
count range and the non-empty topic before building the prompt. -/
def brainstorm_execute_v2_request (input : BrainstormInput) : Except (List Char) GenRequest :=
  if input.num_ideas = 0 || 50 < input.num_ideas then
    Except.error ("num_ideas must be between 1 and 50").toList
  else if (trim input.prompt).isEmpty then
    Except.error ("Topic cannot be empty").toList
  else
    let base := ("Generate ").toList ++ natDigits input.num_ideas ++
      (" creative, diverse ideas for the following topic:\n\n").toList ++
      input.prompt ++ ("\n\n").toList
    let withCons := match input.constraints with
      | some c => base ++ ("Constraints: ").toList ++ c ++ ("\n\n").toList
      | none => base
    let prompt := withCons ++
      ("List each idea on a new line, numbered (1., 2., 3., etc.).\n").toList ++
      ("Make ideas specific, actionable, and varied in approach.").toList
    let model := modelPreferPro input.model
    Except.ok
      { prompt := prompt, model := model,
        config := some
          { temperature := (input.params.bind (fun p => p.temperature)) <|> some (9 / 10),
            max_output_tokens := (input.params.bind (fun p => p.max_tokens)) <|> some 2048,
            top_p := input.params.bind (fun p => p.top_p),
            top_k := input.params.bind (fun p => p.top_k) } }

/-- Search filters (`struct SearchFilters`). -/
structure SearchFilters where
  source_ids : Option (List (List Char))
  min_relevance : Option ℚ
  max_results : Option Nat
  deriving DecidableEq

/-- Search tool input (`struct SearchInput`). -/
structure SearchInput where
  query : List Char
  sources : List Source
  filters : Option SearchFilters
  ranking : RankingCriteria
  include_citations : Bool
  model : Option ModelPreference
  params : Option GenerationParams
  deriving DecidableEq

/-- Search `execute_v2` up to its generation call: validates the non-empty
query, the non-empty source list, and that the `source_ids` filter leaves at
least one source, before building the prompt over the filtered sources. -/
def search_execute_v2_request (input : SearchInput) : Except (List Char) GenRequest :=
  if (trim input.query).isEmpty then
    Except.error ("Query cannot be empty").toList
  else if input.sources.isEmpty then
    Except.error ("At least one source is required").toList
  else
    let filtered := match input.filters.bind (fun f => f.source_ids) with
      | some ids => input.sources.filter (fun (s : Source) => ids.contains s.id)
      | none => input.sources
    if filtered.isEmpty then
      Except.error ("No sources match the filter criteria").toList
    else
      let base := ("You are performing a semantic search across multiple sources.\n\nQuery: ").toList ++
        input.query ++ ("\n\nSources:\n\n").toList
      let withSources := filtered.foldl
        (fun acc (s : Source) => acc ++ ("--- Source: ").toList ++ s.title ++ (" (ID: ").toList ++
          s.id ++ (") ---\n").toList ++ s.content ++ ("\n\n").toList) base
      let prompt := withSources ++
        ("Based on the query, provide:\n1. A direct answer to the query\n2. For each relevant source, provide:\n- Source ID and title\n- A brief excerpt showing relevance\n- Relevance score (0.0-1.0)\n3. If applicable, include direct quotes as citations\n\nFormat your response clearly with sections for Answer, Results, and Citations.").toList
      let model := modelPreferPro input.model
      Except.ok
        { prompt := prompt, model := model,
          config := some
            { temperature := (input.params.bind (fun p => p.temperature)) <|> some (3 / 10),
              max_output_tokens := (input.params.bind (fun p => p.max_tokens)) <|> some 2048,
              top_p := input.params.bind (fun p => p.top_p),
              top_k := input.params.bind (fun p => p.top_k) } }

/-- Analyzer type (`enum AnalyzerType`). -/
inductive AnalyzerType
  | text
  | code (language : Option (List Char))
  | document
  | sentiment
  | comparison (compare_with : List Char)
  deriving DecidableEq

/-- Analyzer detail level (`enum DetailLevel`); not used in any prompt. -/
inductive DetailLevel
  | brief
  | standard
  | comprehensive
  deriving DecidableEq

/-- Analyzer options (`struct AnalyzerOptions`). -/
structure AnalyzerOptions where
  focus_areas : Option (List (List Char))
  detail_level : DetailLevel
  deriving DecidableEq

/-- Analyze tool input (`struct AnalyzeInput`). -/
structure AnalyzeInput where
  content : List Char
  analyzer_type : AnalyzerType
  options : Option AnalyzerOptions
  model : Option ModelPreference
  params : Option GenerationParams
  deriving DecidableEq

/-- Analyze `execute_v2` up to the generation call of the analyzer it
dispatches to: validates the non-empty content, selects the model, and
builds the per-analyzer prompt; every analyzer passes `None` as the
generation configuration. -/
def analyze_execute_v2_request (input : AnalyzeInput) : Except (List Char) GenRequest :=
  if (trim input.content).isEmpty then
    Except.error ("Content cannot be empty").toList
  else
    let model := modelPreferPro input.model
    let prompt := match input.analyzer_type with
      | .text =>
        let focus := match input.options.bind (fun o => o.focus_areas) with
          | some f => ("\nFocus on: ").toList ++ joinWith (", ").toList f
          | none => []
        ("Analyze the following text and provide:\n1. Overall sentiment (positive, negative, neutral, mixed)\n2. Main themes (3-5 themes)\n3. Tone (formal, informal, technical, conversational, etc.)\n4. Key points (3-5 bullet points)").toList ++
          focus ++ ("\n\nText:\n").toList ++ input.content ++
          ("\n\nProvide analysis in a structured format.").toList
      | .code language =>
        let langInfo := match language with
          | some l => ("Language: ").toList ++ l ++ ("\n").toList
          | none => []
        ("Analyze this code and provide:\n1. Quality score (0-10)\n2. List of issues with severity (critical/high/medium/low) and category\n3. Design patterns used\n4. Complexity assessment\n5. Improvement suggestions\n\n").toList ++
          langInfo ++ ("```\n").toList ++ input.content ++
          ("\n```\n\nBe specific and actionable.").toList
      | .document =>
        ("Analyze this document\x27s structure and readability:\n1. Overall structure (how it\x27s organized)\n2. Readability score (0-10, where 10 is most readable)\n3. Main sections\n4. Key points\n\nDocument:\n").toList ++
          input.content ++ ("\n\nProvide structured analysis.").toList
      | .sentiment =>
        ("Perform detailed sentiment analysis:\n1. Overall sentiment (very negative, negative, neutral, positive, very positive)\n2. Confidence level (0-1)\n3. Detected emotions with intensity (0-1): joy, sadness, anger, fear, surprise, etc.\n\nText:\n").toList ++
          input.content ++ ("\n\nBe precise and nuanced.").toList
      | .comparison compareWith =>
        ("Compare these two texts:\n\nText A:\n").toList ++ input.content ++
          ("\n\nText B:\n").toList ++ compareWith ++
          ("\n\nProvide:\n1. Key similarities\n2. Key differences\n3. Overall verdict on how similar they are").toList
    Except.ok { prompt := prompt, model := model, config := none }

/-- The model variant named by an executor outcome, when a request is
issued. -/
def issuedModel (r : Except (List Char) GenRequest) : Option GeminiModel :=
  (r.toOption).map (fun g => g.model)

/-! ## Protocol dispatcher (src/mcp/server.rs)

The JSON value space and the request/response envelopes are embedded
structurally; `serde_json::from_str::<JsonRpcRequest>` is an external
library and enters as the `decode` parameter of the loop, and
`handle_request` as the `handle` parameter. -/

/-- A JSON value (numbers restricted to integers; only identifiers and
structural shape matter here). -/
inductive Json
  | null
  | bool (b : Bool)
  | num (n : Int)
  | str (s : List Char)
  | arr (elems : List Json)
  | obj (fields : List (List Char × Json))

/-- An incoming request envelope (`struct JsonRpcRequest`). -/
structure JsonRpcRequest where
  jsonrpc : List Char
  id : Json
  method : List Char
  params : Option Json

/-- A JSON-RPC error object (`struct JsonRpcError`). -/
structure JsonRpcError where
  code : Int
  message : List Char

/-- A response envelope (`struct JsonRpcResponse`). -/
structure JsonRpcResponse where
  jsonrpc : List Char
  id : Json
  result : Option Json
  error : Option JsonRpcError

/-- `JsonRpcResponse::error`: the identifier defaults to JSON `null` when
none is supplied. -/
def respError (code : Int) (message : List Char) (id : Option Json) : JsonRpcResponse :=
  { jsonrpc := ("2.0").toList, id := id.getD Json.null, result := none,
    error := some { code := code, message := message } }

/-- One iteration of the `run` loop on one input line: trim it, skip it when
empty, otherwise decode it and answer — with `handle`'s response on success,
with a `-32700` parse error carrying a null identifier on failure. -/
def serverStep (decode : List Char → Option JsonRpcRequest)
    (handle : JsonRpcRequest → JsonRpcResponse) (line : List Char) :
    List JsonRpcResponse :=
  let t := trim line
  if t.isEmpty then []
  else
    match decode t with
    | some req => [handle req]
    | none => [respError (-32700) ("Parse error").toList none]

/-- The `run` loop over the whole input: one step per line, responses
emitted in order; the loop never stops early on a bad line. -/
def serverRun (decode : List Char → Option JsonRpcRequest)
    (handle : JsonRpcRequest → JsonRpcResponse) :
    List (List Char) → List JsonRpcResponse
  | [] => []
  | line :: rest => serverStep decode handle line ++ serverRun decode handle rest

/-- Decidable equality for executor outcomes. -/
instance {ε α : Type} [DecidableEq ε] [DecidableEq α] : DecidableEq (Except ε α) := fun x y =>
  match x, y with
  | .ok a, .ok b =>
    if h : a = b then .isTrue (by rw [h]) else .isFalse (by intro hc; cases hc; exact h rfl)
  | .error a, .error b =>
    if h : a = b then .isTrue (by rw [h]) else .isFalse (by intro hc; cases hc; exact h rfl)
  | .ok _, .error _ => .isFalse (by intro hc; cases hc)
  | .error _, .ok _ => .isFalse (by intro hc; cases hc)

/-! ## Concrete inputs used by the claim theorems -/

/-- A family of idea lists: `n` ideas with ids `1..n`, the first `k` of which
contain the keyword `zebra` (the other texts contain no 4-letter token). -/
def ideasZebra (k n : Nat) : List Idea :=
  (List.range n).map
    (fun i => { id := i + 1, text := if i < k then ("zebra").toList else ("x").toList })

/-- Specification-side description of `line.split(':').nth(1).unwrap_or("")`:
the piece of the line strictly between its first and second colon (everything
after the first colon, when there is no second one; empty when there is no
colon at all). -/
def secondColonSeg (l : List Char) : List Char :=
  ((l.dropWhile (fun x => !(x = ':'))).drop 1).takeWhile (fun x => !(x = ':'))

/-- One line of an `n`-line numbered idea list, e.g. `"3. Idea"`. -/
def mkIdeaLine (n : Nat) : List Char := natDigits n ++ ('.' :: ' ' :: ("Idea").toList)

/-- The lines of an `n`-line numbered idea list. -/
def mkIdeaLines (n : Nat) : List (List Char) := (List.range n).map (fun i => mkIdeaLine (i + 1))

/-- An `n`-line numbered idea list fed back as one model text. -/
def mkIdeaText (n : Nat) : List Char := joinWith (("\n").toList) (mkIdeaLines n)

/-- The five candidate results of the spec's search-ranking scenario, with
relevance scores `[0.9, 0.3, 0.7, 0.95, 0.1]`. -/
def c6Results : List SourceResult :=
  [{ source_id := ("r1").toList, source_title := ("R1").toList, excerpt := [],
     relevance_score := 9 / 10 },
   { source_id := ("r2").toList, source_title := ("R2").toList, excerpt := [],
     relevance_score := 3 / 10 },
   { source_id := ("r3").toList, source_title := ("R3").toList, excerpt := [],
     relevance_score := 7 / 10 },
   { source_id := ("r4").toList, source_title := ("R4").toList, excerpt := [],
     relevance_score := 95 / 100 },
   { source_id := ("r5").toList, source_title := ("R5").toList, excerpt := [],
     relevance_score := 1 / 10 }]

/-! ## Claim C1 -/

/-- C1: the spec's consensus-threshold rule `count ≥ ceil(0.3 × ideas)` holds
at 10 ideas (threshold 3: a token in 3 ideas is kept with frequency 3, a
token in 2 ideas is dropped), but the code computes the threshold in `f32`;
at 50 ideas the rounded product `50 as f32 * 0.3f32` lies just above 15, so
the code's threshold is 16 and a token occurring in exactly
`ceil(0.3 × 50) = 15` ideas — `0.3 * 50 = 15` exactly — is wrongly dropped,
against both the spec and the code's own "at least 30% of ideas" comment. -/
theorem c1_code_evaluation :
    extract_consensus_themes (ideasZebra 3 10) =
      [{ theme := ("zebra").toList, frequency := 3, related_ideas := [1, 2, 3] }] ∧
    extract_consensus_themes (ideasZebra 2 10) = [] ∧
    thresholdF32 10 = 3 ∧
    extract_consensus_themes (ideasZebra 15 50) = [] ∧
    thresholdF32 50 = 16 ∧
    (3 : ℚ) / 10 * 50 = 15 := by
  refine ⟨by decide, by decide, by decide, by decide, by decide, by norm_num⟩

/-! ## Claim C2 -/

/-- C2 counterexample: the summarize executor with no model preference
issues its generation request with the fast variant (`Flash`), not the
quality variant (`Pro`) the claim asserts. -/
theorem c2_counterexample :
    issuedModel (summarize_execute_v2_request
      { content := ("Hello").toList, length := .medium, format := .paragraph,
        focus := none, model := none, params := none }) = some GeminiModel.flash ∧
    GeminiModel.flash ≠ GeminiModel.pro := by
  refine ⟨by decide, by decide⟩

/-- The defaulted issued model is `m` whenever every issued request uses
model `m`. -/
theorem issuedModel_getD_of_model (e : Except (List Char) GenRequest) (m : GeminiModel)
    (h : ∀ r, e = Except.ok r → r.model = m) : (issuedModel e).getD m = m := by
  cases e with
  | error _ => rfl
  | ok r => rw [show (issuedModel (Except.ok r)).getD m = r.model from rfl, h r rfl]

/-- C2 amended: when the caller leaves the model preference absent, the
brainstorm, search and analyze executors select the quality variant (`Pro`),
while the summarize executor selects the fast variant (`Flash`). -/
theorem c2_amended (bi : BrainstormInput) (si : SearchInput) (ai : AnalyzeInput)
    (mi : SummarizeInput) (hb : bi.model = none) (hs : si.model = none)
    (ha : ai.model = none) (hm : mi.model = none) :
    (issuedModel (brainstorm_execute_v2_request bi)).getD GeminiModel.pro = GeminiModel.pro ∧
    (issuedModel (search_execute_v2_request si)).getD GeminiModel.pro = GeminiModel.pro ∧
    (issuedModel (analyze_execute_v2_request ai)).getD GeminiModel.pro = GeminiModel.pro ∧
    issuedModel (summarize_execute_v2_request mi) = some GeminiModel.flash := by
  refine ⟨?_, ?_, ?_, ?_⟩
  · refine issuedModel_getD_of_model _ _ (fun r h => ?_)
    unfold brainstorm_execute_v2_request at h
    rw [hb] at h
    dsimp only at h
    repeat' split at h
    all_goals cases h <;> rfl
  · refine issuedModel_getD_of_model _ _ (fun r h => ?_)
    unfold search_execute_v2_request at h
    rw [hs] at h
    dsimp only at h
    repeat' split at h
    all_goals cases h <;> rfl
  · refine issuedModel_getD_of_model _ _ (fun r h => ?_)
    unfold analyze_execute_v2_request at h
    rw [ha] at h
    dsimp only at h
    repeat' split at h
    all_goals cases h <;> rfl
  · unfold summarize_execute_v2_request
    rw [hm]
    rfl

/-- C2 amended, witness: the amended statement evaluated at concrete inputs
whose model preference is absent. -/
theorem c2_amended_witness :
    (issuedModel (brainstorm_execute_v2_request
      { prompt := ("topic").toList, num_ideas := 10, constraints := none,
        extract_consensus := true, model := none, params := none,
        claude_thoughts := none, max_rounds := none })).getD GeminiModel.pro =
      GeminiModel.pro ∧
    (issuedModel (search_execute_v2_request
      { query := ("q").toList,
        sources := [{ id := ("1").toList, title := ("T").toList, content := ("c").toList }],
        filters := none, ranking := .relevance, include_citations := true,
        model := none, params := none })).getD GeminiModel.pro = GeminiModel.pro ∧
    (issuedModel (analyze_execute_v2_request
      { content := ("text").toList, analyzer_type := .text, options := none,
        model := none, params := none })).getD GeminiModel.pro = GeminiModel.pro ∧
    issuedModel (summarize_execute_v2_request
      { content := ("text").toList, length := .medium, format := .paragraph,
        focus := none, model := none, params := none }) = some GeminiModel.flash :=
  c2_amended _ _ _ _ rfl rfl rfl rfl

/-! ## Claim C3 -/

/-- C3: the brainstorm, search and analyze executors reject an invalid input
(whitespace-only required content, out-of-range idea count) with a validation
error before any generation request is built, but the summarize `execute_v2`
performs no validation at all and issues a generation request even for
whitespace-only content — the empty-content and size checks live only in the
legacy `execute` wrapper. -/
theorem c3_code_evaluation :
    (summarize_execute_v2_request
      { content := (" ").toList, length := .medium, format := .paragraph,
        focus := none, model := none, params := none }).toOption.isSome = true ∧
    brainstorm_execute_v2_request
      { prompt := (" ").toList, num_ideas := 10, constraints := none,
        extract_consensus := true, model := none, params := none,
        claude_thoughts := none, max_rounds := none } =
      Except.error (("Topic cannot be empty").toList) ∧
    brainstorm_execute_v2_request
      { prompt := ("topic").toList, num_ideas := 0, constraints := none,
        extract_consensus := true, model := none, params := none,
        claude_thoughts := none, max_rounds := none } =
      Except.error (("num_ideas must be between 1 and 50").toList) ∧
    brainstorm_execute_v2_request
      { prompt := ("topic").toList, num_ideas := 51, constraints := none,
        extract_consensus := true, model := none, params := none,
        claude_thoughts := none, max_rounds := none } =
      Except.error (("num_ideas must be between 1 and 50").toList) ∧
    search_execute_v2_request
      { query := (" ").toList,
        sources := [{ id := ("1").toList, title := ("T").toList, content := ("c").toList }],
        filters := none, ranking := .relevance, include_citations := true,
        model := none, params := none } =
      Except.error (("Query cannot be empty").toList) ∧
    analyze_execute_v2_request
      { content := (" ").toList, analyzer_type := .text, options := none,
        model := none, params := none } =
      Except.error (("Content cannot be empty").toList) := by
  refine ⟨by decide, by decide, by decide, by decide, by decide, by decide⟩

/-! ## Claim C4 -/

/-- Evaluation lemma for `parseDec` from its Nat-level components. -/
theorem parseDec_val (l : List Char) (a b k : Nat)
    (h1 : digitsToNat (l.takeWhile isDig) = a) (h2 : digitsToNat (fracDigits l) = b)
    (h3 : (fracDigits l).length = k) :
    parseDec l = (a : ℚ) + (b : ℚ) / (10 : ℚ) ^ k := by
  rw [parseDec, h1, h2, h3]

/-- C4 counterexample: the score regex is case-sensitive — on the claim's
case variant `"Score: 7.2"` the code finds no match and falls back to the
caller default instead of returning `7.2`. -/
theorem c4_counterexample :
    extract_score (("Score: 7.2").toList) = none ∧
    extract_score (("Score: 7.2").toList) ≠ some ((36 : ℚ) / 5) := by
  refine ⟨by decide, by decide⟩

/-- C4 amended: score extraction matches `<number>/10` anywhere and
`score: <number>` case-sensitively (the regex has no case-insensitive flag),
returns the first captured number, and leaves the caller default for text
without a match — so `"Quality score: 8.5/10"` yields 8.5 and
`"Readability score 7.2"` yields 7.2, but the capitalised `"Score: 7.2"`
yields the caller default. -/
theorem c4_amended :
    extract_score (("Quality score: 8.5/10").toList) = some ((17 : ℚ) / 2) ∧
    extract_score (("Readability score 7.2").toList) = some ((36 : ℚ) / 5) ∧
    extract_score (("8.5/10").toList) = some ((17 : ℚ) / 2) ∧
    extract_score (("Score: 7.2").toList) = none ∧
    extract_score (("text with no numeric pattern").toList) = none ∧
    (extract_score (("text with no numeric pattern").toList)).getD ((1 : ℚ) / 2) =
      (1 : ℚ) / 2 := by
  refine ⟨?_, ?_, ?_, by decide, by decide, rfl⟩
  · unfold extract_score
    rw [show scanScore (("Quality score: 8.5/10").toList) = some (("8.5").toList) from by decide]
    rw [Option.map_some', parseDec_val (("8.5").toList) 8 5 1 (by decide) (by decide) (by decide)]
    norm_num
  · unfold extract_score
    rw [show scanScore (("Readability score 7.2").toList) = some (("7.2").toList) from by decide]
    rw [Option.map_some', parseDec_val (("7.2").toList) 7 2 1 (by decide) (by decide) (by decide)]
    norm_num
  · unfold extract_score
    rw [show scanScore (("8.5/10").toList) = some (("8.5").toList) from by decide]
    rw [Option.map_some', parseDec_val (("8.5").toList) 8 5 1 (by decide) (by decide) (by decide)]
    norm_num

/-! ## Claim C5 -/

/-- Structure of `splitOnCh`: the head is the longest colon-free prefix and
the tail is the split of whatever follows the first separator. -/
theorem splitOnCh_cons_eq (c : Char) (l : List Char) :
    splitOnCh c l =
      l.takeWhile (fun x => !(x = c)) ::
        (match l.dropWhile (fun x => !(x = c)) with
          | [] => ([] : List (List Char))
          | _ :: t => splitOnCh c t) := by
  induction l with
  | nil => rfl
  | cons x xs ih =>
    by_cases hx : x = c
    · subst hx
      simp [splitOnCh, List.takeWhile_cons, List.dropWhile_cons]
    · simp [splitOnCh, hx, List.takeWhile_cons, List.dropWhile_cons, ih]

/-- The second piece of `split(':')` — `nth(1).unwrap_or("")` — is exactly
the segment of the line strictly between its first and second separator. -/
theorem splitOnCh_get1 (c : Char) (l : List Char) :
    ((splitOnCh c l).get? 1).getD [] =
      ((l.dropWhile (fun x => !(x = c))).drop 1).takeWhile (fun x => !(x = c)) := by
  rw [splitOnCh_cons_eq]
  cases hd : l.dropWhile (fun x => !(x = c)) with
  | nil => simp
  | cons y t =>
    simp only [List.get?_cons_succ, List.drop_succ_cons, List.drop_zero]
    rw [splitOnCh_cons_eq c t]
    simp

/-- C5 counterexample: on a matching line with two colons, field extraction
returns only the piece between the first and second colon — for
`"time: 10:30"` with keyword `time` it returns `"10"`, not the claimed
entire tail `"10:30"`. -/
theorem c5_counterexample :
    extract_field (("time: 10:30").toList) (("time").toList) = some (("10").toList) ∧
    some (("10").toList) ≠ some (("10:30").toList) := by
  refine ⟨by decide, by decide⟩

/-- C5 amended: field extraction scans lines in order and returns, trimmed,
the segment of the first keyword-containing line strictly between its first
and second colon (everything after the first colon only when no second colon
exists; empty for a colon-free line), with the caller default when no line
contains the keyword; answer extraction does the same on the first line
starting with `answer:`, with the first three lines joined by spaces as its
fallback. -/
theorem c5_amended :
    (∀ text field, extract_field text field =
      ((linesOf text).find? (fun line => containsB (lower line) field)).map
        (fun line => trim (secondColonSeg line))) ∧
    (∀ text, extract_answer text =
      match (linesOf text).find?
          (fun line => startsWithB (lower line) (("answer:").toList)) with
      | some line => trim (secondColonSeg line)
      | none => trim (joinWith [' '] ((linesOf text).take 3))) ∧
    extract_field (("Sentiment: positive\nTone: formal").toList) (("sentiment").toList) =
      some (("positive").toList) ∧
    extract_field (("no colon here").toList) (("colon").toList) = some ([]) ∧
    extract_field (("nothing relevant").toList) (("keyword").toList) = none := by
  refine ⟨?_, ?_, by decide, by decide, by decide⟩
  · intro text field
    unfold extract_field
    congr 1
    funext line
    rw [splitOnCh_get1]
    rfl
  · intro text
    unfold extract_answer
    cases hf : (linesOf text).find?
        (fun line => startsWithB (lower line) (("answer:").toList)) with
    | none => rfl
    | some line => dsimp only; rw [splitOnCh_get1]; rfl

/-! ## Claim C6 -/

/-- Membership in the stable insertion. -/
theorem mem_insertScoreDesc {b r : SourceResult} {l : List SourceResult} :
    b ∈ insertScoreDesc r l ↔ b = r ∨ b ∈ l := by
  induction l with
  | nil => simp [insertScoreDesc]
  | cons u us ih =>
    rw [insertScoreDesc]
    by_cases hc : r.relevance_score < u.relevance_score
    · rw [if_pos hc]
      simp only [List.mem_cons, ih]
      try tauto
    · rw [if_neg hc]
      simp only [List.mem_cons]
      try tauto

/-- Membership in the stable sort. -/
theorem mem_sortScoreDesc {b : SourceResult} {l : List SourceResult} :
    b ∈ sortScoreDesc l ↔ b ∈ l := by
  induction l with
  | nil => simp [sortScoreDesc]
  | cons u us ih =>
    rw [sortScoreDesc, mem_insertScoreDesc]
    simp [ih]

/-- Inserting into a descending list keeps it descending. -/
theorem insertScoreDesc_pairwise (r : SourceResult) (l : List SourceResult)
    (h : l.Pairwise (fun a b => b.relevance_score ≤ a.relevance_score)) :
    (insertScoreDesc r l).Pairwise (fun a b => b.relevance_score ≤ a.relevance_score) := by
  induction l with
  | nil => simp [insertScoreDesc]
  | cons u us ih =>
    rw [insertScoreDesc]
    rcases List.pairwise_cons.mp h with ⟨hu, hus⟩
    by_cases hc : r.relevance_score < u.relevance_score
    · rw [if_pos hc]
      refine List.pairwise_cons.mpr ⟨?_, ih hus⟩
      intro b hb
      rcases mem_insertScoreDesc.mp hb with hb | hb
      · exact hb ▸ hc.le
      · exact hu b hb
    · rw [if_neg hc]
      push_neg at hc
      refine List.pairwise_cons.mpr ⟨?_, h⟩
      intro b hb
      rcases List.mem_cons.mp hb with hb | hb
      · exact hb ▸ hc
      · exact le_trans (hu b hb) hc

/-- The stable sort by relevance score produces a descending list. -/
theorem sortScoreDesc_pairwise (l : List SourceResult) :
    (sortScoreDesc l).Pairwise (fun a b => b.relevance_score ≤ a.relevance_score) := by
  induction l with
  | nil => simp [sortScoreDesc]
  | cons u us ih => exact insertScoreDesc_pairwise u (sortScoreDesc us) ih

/-- C6: on the spec's five candidates scored `[0.9, 0.3, 0.7, 0.95, 0.1]`
with `min_relevance = 0.5` and `max_results = 2`, relevance ranking returns
exactly the entries scored 0.95 and 0.9, in that order; in general the
relevance-ranked output is descending in score, and every returned entry
passed the minimum-relevance filter applied before ranking. -/
theorem c6_filter_rank_truncate :
    rankAndLimit c6Results (some ((1 : ℚ) / 2)) (some 2) RankingCriteria.relevance =
      [{ source_id := ("r4").toList, source_title := ("R4").toList, excerpt := [],
         relevance_score := 95 / 100 },
       { source_id := ("r1").toList, source_title := ("R1").toList, excerpt := [],
         relevance_score := 9 / 10 }] ∧
    (∀ results minRel maxRes,
      (rankAndLimit results minRel maxRes RankingCriteria.relevance).Pairwise
        (fun a b => b.relevance_score ≤ a.relevance_score)) ∧
    (∀ results (m : ℚ) maxRes r,
      r ∈ rankAndLimit results (some m) maxRes RankingCriteria.relevance →
        m ≤ r.relevance_score ∧ r ∈ results) := by
  refine ⟨?_, ?_, ?_⟩
  · norm_num [rankAndLimit, c6Results, sortScoreDesc, insertScoreDesc, List.filter]
  · intro results minRel maxRes
    unfold rankAndLimit
    cases minRel with
    | none =>
      cases maxRes with
      | none => exact sortScoreDesc_pairwise results
      | some mx => exact (sortScoreDesc_pairwise results).sublist (List.take_sublist mx _)
    | some m =>
      cases maxRes with
      | none => exact sortScoreDesc_pairwise _
      | some mx => exact (sortScoreDesc_pairwise _).sublist (List.take_sublist mx _)
  · intro results m maxRes r hr
    unfold rankAndLimit at hr
    have hr' : r ∈ sortScoreDesc (results.filter
        (fun x => decide (m ≤ x.relevance_score))) := by
      cases maxRes with
      | none => exact hr
      | some mx => exact (List.take_sublist mx _).mem hr
    have hmem := mem_sortScoreDesc.mp hr'
    have := List.mem_filter.mp hmem
    exact ⟨by simpa using this.2, this.1⟩

/-- C6 witness: the filter-correctness part of the claim theorem evaluated
at the top-ranked concrete entry of the spec scenario. -/
theorem c6_filter_rank_truncate_witness :
    (1 : ℚ) / 2 ≤ ((⟨("r4").toList, ("R4").toList, [], 95 / 100⟩ : SourceResult)).relevance_score ∧
    ((⟨("r4").toList, ("R4").toList, [], 95 / 100⟩ : SourceResult)) ∈ c6Results :=
  c6_filter_rank_truncate.2.2 c6Results ((1 : ℚ) / 2) (some 2) _
    (by rw [c6_filter_rank_truncate.1]; exact List.mem_cons_self _ _)

/-! ## Claim C7 -/

/-- Every extracted search result carries the placeholder score `0.7`. -/
theorem extract_results_score (text : List Char) (sources : List Source) :
    ∀ r ∈ extract_results text sources, r.relevance_score = 7 / 10 := by
  intro r hr
  rcases List.mem_filterMap.mp hr with ⟨s, _, hs⟩
  by_cases hc : (containsB (lower text) (lower s.title) || containsB text s.id) = true
  · rw [if_pos hc] at hs
    cases hs
    rfl
  · rw [if_neg hc] at hs
    cases hs

/-- The stable descending sort leaves a constant-score list unchanged. -/
theorem sortScoreDesc_of_const (c : ℚ) :
    ∀ l : List SourceResult, (∀ r ∈ l, r.relevance_score = c) → sortScoreDesc l = l := by
  intro l
  induction l with
  | nil => intro _; rfl
  | cons x xs ih =>
    intro h
    rw [sortScoreDesc, ih (fun r hr => h r (List.mem_cons_of_mem _ hr))]
    cases xs with
    | nil => rfl
    | cons y ys =>
      have hx := h x (List.mem_cons_self _ _)
      have hy := h y (by simp)
      rw [insertScoreDesc, if_neg (by rw [hx, hy]; exact lt_irrefl c)]

/-- C7: because every extracted result is scored with the constant 0.7, the
stable relevance sort is the identity there, so the declared-but-stubbed
`recency` and `popularity` ranking modes produce exactly the ordered result
list of `relevance` mode, for every model text, source list and filter
settings. -/
theorem c7_stub_ranking_modes :
    ∀ (text : List Char) (sources : List Source) (minRel : Option ℚ) (maxRes : Option Nat),
      searchPipeline text sources minRel maxRes RankingCriteria.recency =
        searchPipeline text sources minRel maxRes RankingCriteria.relevance ∧
      searchPipeline text sources minRel maxRes RankingCriteria.popularity =
        searchPipeline text sources minRel maxRes RankingCriteria.relevance := by
  intro text sources minRel maxRes
  have hconst := extract_results_score text sources
  unfold searchPipeline rankAndLimit
  dsimp only
  cases minRel with
  | none =>
    rw [sortScoreDesc_of_const (7 / 10) _ hconst]
    exact ⟨rfl, rfl⟩
  | some m =>
    rw [sortScoreDesc_of_const (7 / 10) _
      (fun r hr => hconst r (List.mem_filter.mp hr).1)]
    exact ⟨rfl, rfl⟩

/-! ## Claim C9 -/

/-- C9: a non-empty line on which envelope decoding fails produces exactly
one `-32700` "Parse error" response whose correlation identifier is JSON
null, and the loop goes on to the remaining lines; a line that trims to
nothing produces no response at all. -/
theorem c9_parse_error_null_id :
    ∀ (decode : List Char → Option JsonRpcRequest)
      (handle : JsonRpcRequest → JsonRpcResponse)
      (line : List Char) (rest : List (List Char))
      (line2 : List Char) (rest2 : List (List Char)),
      trim line ≠ [] → decode (trim line) = none → trim line2 = [] →
      serverRun decode handle (line :: rest) =
        respError (-32700) (("Parse error").toList) none :: serverRun decode handle rest ∧
      (respError (-32700) (("Parse error").toList) none).id = Json.null ∧
      serverRun decode handle (line2 :: rest2) = serverRun decode handle rest2 := by
  intro decode handle line rest line2 rest2 h1 h2 h3
  have he1 : (trim line).isEmpty = false := by
    cases hl : trim line with
    | nil => exact absurd hl h1
    | cons a as => rfl
  have he2 : (trim line2).isEmpty = true := by rw [h3]; rfl
  refine ⟨?_, rfl, ?_⟩
  · simp only [serverRun]
    unfold serverStep
    dsimp only
    rw [he1, h2]
    rfl
  · simp only [serverRun]
    unfold serverStep
    dsimp only
    rw [he2]
    rfl

/-- C9 witness: the dispatcher loop evaluated on a concrete undecodable line
and on a concrete whitespace-only line. -/
theorem c9_parse_error_null_id_witness :
    serverRun (fun _ => none) (fun _ => respError 0 [] none) ((("x").toList) :: []) =
      respError (-32700) (("Parse error").toList) none ::
        serverRun (fun _ => none) (fun _ => respError 0 [] none) [] ∧
    (respError (-32700) (("Parse error").toList) none).id = Json.null ∧
    serverRun (fun _ => none) (fun _ => respError 0 [] none) (((" ").toList) :: []) =
      serverRun (fun _ => none) (fun _ => respError 0 [] none) [] :=
  c9_parse_error_null_id (fun _ => none) (fun _ => respError 0 [] none)
    (("x").toList) [] ((" ").toList) [] (by decide) rfl (by decide)

/-! ## Claim C10 -/

/-- Elements produced by `dedupFirstAux` avoid the `seen` accumulator and
come from the input. -/
theorem mem_dedupFirstAux {x : List Char} :
    ∀ {ts seen : List (List Char)}, x ∈ dedupFirstAux seen ts → x ∈ ts ∧ x ∉ seen := by
  intro ts
  induction ts with
  | nil => intro seen h; cases h
  | cons t ts ih =>
    intro seen h
    rw [dedupFirstAux] at h
    by_cases ht : t ∈ seen
    · rw [if_pos ht] at h
      rcases ih h with ⟨h1, h2⟩
      exact ⟨List.mem_cons_of_mem _ h1, h2⟩
    · rw [if_neg ht] at h
      rcases List.mem_cons.mp h with rfl | h'
      · exact ⟨List.mem_cons_self _ _, ht⟩
      · rcases ih h' with ⟨h1, h2⟩
        exact ⟨List.mem_cons_of_mem _ h1, fun hx => h2 (List.mem_cons_of_mem _ hx)⟩

/-- The per-idea deduplicated token list has no duplicates (the hash-set
guard admits each token once per idea). -/
theorem dedupFirstAux_nodup : ∀ (ts seen : List (List Char)), (dedupFirstAux seen ts).Nodup := by
  intro ts
  induction ts with
  | nil => intro seen; exact List.nodup_nil
  | cons t ts ih =>
    intro seen
    rw [dedupFirstAux]
    by_cases ht : t ∈ seen
    · rw [if_pos ht]; exact ih seen
    · rw [if_neg ht]
      refine List.nodup_cons.mpr ⟨?_, ih (t :: seen)⟩
      intro hmem
      exact (mem_dedupFirstAux hmem).2 (List.mem_cons_self _ _)

/-- `dedupFirst` has no duplicates. -/
theorem dedupFirst_nodup (ts : List (List Char)) : (dedupFirst ts).Nodup :=
  dedupFirstAux_nodup ts []

/-- Lookup after one `assocAppend`: the appended id lands at the end of
exactly the entry of its word. -/
theorem lookVal_assocAppend (m : ThemeMap) (k : List Char) (v : Nat) (w : List Char) :
    lookVal (assocAppend m k v) w = lookVal m w ++ (if w = k then [v] else []) := by
  induction m with
  | nil =>
    by_cases h : w = k
    · subst h
      simp [assocAppend, lookVal]
    · have h' : ¬k = w := fun hh => h hh.symm
      simp [assocAppend, lookVal, h, h']
  | cons e rest ih =>
    obtain ⟨k', vs⟩ := e
    rw [assocAppend]
    by_cases h1 : k' = k
    · subst h1
      rw [if_pos rfl]
      by_cases h2 : k' = w
      · subst h2
        simp [lookVal]
      · have h2' : ¬w = k' := fun hh => h2 hh.symm
        simp [lookVal, h2, h2']
    · rw [if_neg h1]
      by_cases h2 : k' = w
      · subst h2
        simp [lookVal, h1]
      · simp [lookVal, h2, ih]

/-- Lookup after recording one idea's (duplicate-free) token list: the
idea's id is appended once to each of its tokens' entries and to no other. -/
theorem lookVal_foldl_append (v : Nat) (w : List Char) :
    ∀ (ts : List (List Char)), ts.Nodup → ∀ (m : ThemeMap),
      lookVal (ts.foldl (fun m' t => assocAppend m' t v) m) w =
        lookVal m w ++ (if w ∈ ts then [v] else []) := by
  intro ts
  induction ts with
  | nil => intro _ m; simp
  | cons t ts ih =>
    intro hnd m
    rcases List.nodup_cons.mp hnd with ⟨htn, hnd'⟩
    rw [List.foldl_cons, ih hnd' (assocAppend m t v), lookVal_assocAppend]
    by_cases h : w = t
    · subst h
      simp [htn, List.append_assoc]
    · simp [h, List.mem_cons, List.append_assoc]

/-- Lookup after `addIdea`. -/
theorem lookVal_addIdea (m : ThemeMap) (i : Idea) (w : List Char) :
    lookVal (addIdea m i) w =
      lookVal m w ++ (if w ∈ dedupFirst (tokensOf i.text) then [i.id] else []) := by
  unfold addIdea
  exact lookVal_foldl_append i.id w _ (dedupFirst_nodup _) m

/-- Lookup accumulated over a list of ideas. -/
theorem lookVal_foldl_addIdea (w : List Char) :
    ∀ (ideas : List Idea) (m : ThemeMap),
      lookVal (ideas.foldl addIdea m) w =
        lookVal m w ++
          (ideas.filter (fun i => decide (w ∈ dedupFirst (tokensOf i.text)))).map Idea.id := by
  intro ideas
  induction ideas with
  | nil => intro m; simp
  | cons i ideas ih =>
    intro m
    rw [List.foldl_cons, ih (addIdea m i), lookVal_addIdea, List.filter_cons]
    by_cases h : w ∈ dedupFirst (tokensOf i.text)
    · simp [h, List.append_assoc]
    · simp [h]

/-- The entry of a word in the finished `keyword_to_ideas` map is exactly
the id list, in input order, of the ideas containing that token. -/
theorem lookVal_keywordToIdeas (ideas : List Idea) (w : List Char) :
    lookVal (keywordToIdeas ideas) w =
      (ideas.filter (fun i => decide (w ∈ dedupFirst (tokensOf i.text)))).map Idea.id := by
  unfold keywordToIdeas
  rw [lookVal_foldl_addIdea]
  simp [lookVal]

/-- `assocAppend` either keeps the key list or appends one fresh key. -/
theorem assocAppend_keys (m : ThemeMap) (k : List Char) (v : Nat) :
    (assocAppend m k v).map Prod.fst = m.map Prod.fst ∨
      (k ∉ m.map Prod.fst ∧ (assocAppend m k v).map Prod.fst = m.map Prod.fst ++ [k]) := by
  induction m with
  | nil => right; simp [assocAppend]
  | cons e rest ih =>
    obtain ⟨k', vs⟩ := e
    rw [assocAppend]
    by_cases h : k' = k
    · rw [if_pos h]; left; simp
    · rw [if_neg h]
      rcases ih with ih | ⟨h1, h2⟩
      · left; simp [ih]
      · right
        refine ⟨?_, by simp [h2]⟩
        simp only [List.map_cons, List.mem_cons]
        rintro (rfl | hk)
        · exact h rfl
        · exact h1 hk

/-- `assocAppend` preserves distinctness of the keys. -/
theorem keys_nodup_assocAppend {m : ThemeMap} (hm : (m.map Prod.fst).Nodup)
    (k : List Char) (v : Nat) : ((assocAppend m k v).map Prod.fst).Nodup := by
  rcases assocAppend_keys m k v with h | ⟨h1, h2⟩
  · rwa [h]
  · rw [h2]
    refine List.Nodup.append hm (List.nodup_singleton k) ?_
    intro a ha hb
    rw [List.mem_singleton] at hb
    subst hb
    exact h1 ha

/-- `addIdea` preserves distinctness of the keys. -/
theorem keys_nodup_addIdea {m : ThemeMap} (hm : (m.map Prod.fst).Nodup) (i : Idea) :
    ((addIdea m i).map Prod.fst).Nodup := by
  unfold addIdea
  generalize dedupFirst (tokensOf i.text) = ts
  induction ts generalizing m with
  | nil => exact hm
  | cons t ts ih => rw [List.foldl_cons]; exact ih (keys_nodup_assocAppend hm t i.id)

/-- The finished map has pairwise distinct keys. -/
theorem keys_nodup_foldl : ∀ (ideas : List Idea) (m : ThemeMap),
    (m.map Prod.fst).Nodup → ((ideas.foldl addIdea m).map Prod.fst).Nodup := by
  intro ideas
  induction ideas with
  | nil => intro m hm; exact hm
  | cons i ideas ih =>
    intro m hm
    rw [List.foldl_cons]
    exact ih _ (keys_nodup_addIdea hm i)

/-- In a map with distinct keys, each entry is its own key's lookup. -/
theorem lookVal_of_mem : ∀ {m : ThemeMap}, (m.map Prod.fst).Nodup →
    ∀ {w : List Char} {vs : List Nat}, (w, vs) ∈ m → lookVal m w = vs := by
  intro m
  induction m with
  | nil => intro _ w vs h; cases h
  | cons e rest ih =>
    obtain ⟨k', vs'⟩ := e
    intro hnd w vs hmem
    rw [List.map_cons] at hnd
    have hnd' := List.nodup_cons.mp hnd
    rcases List.mem_cons.mp hmem with he | ht
    · cases he
      rw [lookVal, if_pos rfl]
    · have hk : k' ≠ w := by
        intro hkw
        subst hkw
        exact hnd'.1 (List.mem_map.mpr ⟨(k', vs), ht, rfl⟩)
      rw [lookVal, if_neg hk]
      exact ih hnd'.2 ht

/-- Membership in the theme insertion. -/
theorem mem_insertFreqDesc {b t : ConsensusTheme} {l : List ConsensusTheme} :
    b ∈ insertFreqDesc t l → b = t ∨ b ∈ l := by
  induction l with
  | nil =>
    intro h
    rw [insertFreqDesc] at h
    exact Or.inl (List.mem_singleton.mp h)
  | cons u us ih =>
    intro h
    rw [insertFreqDesc] at h
    by_cases hc : t.frequency < u.frequency
    · rw [if_pos hc] at h
      rcases List.mem_cons.mp h with rfl | h'
      · exact Or.inr (List.mem_cons_self _ _)
      · rcases ih h' with h'' | h''
        · exact Or.inl h''
        · exact Or.inr (List.mem_cons_of_mem _ h'')
    · rw [if_neg hc] at h
      rcases List.mem_cons.mp h with rfl | h'
      · exact Or.inl rfl
      · exact Or.inr h'

/-- Membership in the theme sort. -/
theorem mem_sortFreqDesc {b : ConsensusTheme} : ∀ {l}, b ∈ sortFreqDesc l → b ∈ l := by
  intro l
  induction l with
  | nil => intro h; cases h
  | cons t ts ih =>
    intro h
    rw [sortFreqDesc] at h
    rcases mem_insertFreqDesc h with rfl | h'
    · exact List.mem_cons_self _ _
    · exact List.mem_cons_of_mem _ (ih h')

/-- C10: for every idea list with strictly increasing ids, every consensus
theme returned by the mining satisfies `frequency = related_ideas.length`,
and its related-idea list is strictly increasing — so each idea contributes
at most once to a theme, however often the token occurs in its text. -/
theorem c10_theme_invariants (ideas : List Idea)
    (h : (ideas.map Idea.id).Pairwise (· < ·)) :
    ∀ t ∈ extract_consensus_themes ideas,
      t.frequency = t.related_ideas.length ∧ t.related_ideas.Pairwise (· < ·) := by
  intro t ht
  unfold extract_consensus_themes at ht
  dsimp only at ht
  have ht1 := List.take_subset 10 _ ht
  have ht2 := mem_sortFreqDesc ht1
  rcases List.mem_map.mp ht2 with ⟨e, hef, rfl⟩
  obtain ⟨w, vs⟩ := e
  have hmem : (w, vs) ∈ keywordToIdeas ideas := List.mem_of_mem_filter hef
  refine ⟨rfl, ?_⟩
  have hnd : ((keywordToIdeas ideas).map Prod.fst).Nodup := by
    unfold keywordToIdeas
    exact keys_nodup_foldl ideas [] (by simp)
  have hv : vs = lookVal (keywordToIdeas ideas) w := (lookVal_of_mem hnd hmem).symm
  show vs.Pairwise (· < ·)
  rw [hv, lookVal_keywordToIdeas]
  exact h.sublist (List.Sublist.map Idea.id (List.filter_sublist _))

/-- C10 witness: the invariants instantiated at a concrete two-idea list and
the concrete `zeta` theme the mining returns for it. -/
theorem c10_theme_invariants_witness :
    ((⟨("zeta").toList, 2, [1, 2]⟩ : ConsensusTheme)).frequency =
      ((⟨("zeta").toList, 2, [1, 2]⟩ : ConsensusTheme)).related_ideas.length ∧
    ((⟨("zeta").toList, 2, [1, 2]⟩ : ConsensusTheme)).related_ideas.Pairwise (· < ·) :=
  c10_theme_invariants
    [⟨1, ("zeta alpha").toList⟩, ⟨2, ("zeta beta").toList⟩] (by decide)
    (⟨("zeta").toList, 2, [1, 2]⟩ : ConsensusTheme) (by decide)

/-! ## Claim C8 -/

/-- A digit character is not whitespace. -/
theorem isDig_not_wsp {c : Char} (h : isDig c = true) : wsp c = false := by
  have h' : '0' ≤ c ∧ c ≤ '9' := by simpa [isDig] using h
  by_contra hw
  have hw' : wsp c = true := by revert hw; cases wsp c <;> simp
  simp only [wsp, Bool.or_eq_true, decide_eq_true_eq] at hw'
  rcases hw' with ((((rfl | rfl) | rfl) | rfl) | rfl) | rfl <;> exact absurd h'.1 (by decide)

/-- A digit character is not a newline. -/
theorem isDig_not_nl {c : Char} (h : isDig c = true) : ¬(c = '\n') := by
  intro hh
  subst hh
  exact absurd h (by decide)

/-- `takeWhile` runs through a prefix that satisfies the predicate. -/
theorem takeWhile_append_of_all {p : Char → Bool} :
    ∀ (ds rest : List Char), (∀ c ∈ ds, p c = true) →
      (ds ++ rest).takeWhile p = ds ++ rest.takeWhile p := by
  intro ds
  induction ds with
  | nil => intro rest _; simp
  | cons d ds ih =>
    intro rest h
    have hd : p d = true := h d (List.mem_cons_self _ _)
    simp [List.takeWhile_cons, hd, ih rest (fun c hc => h c (List.mem_cons_of_mem _ hc))]

/-- `dropWhile` runs through a prefix that satisfies the predicate. -/
theorem dropWhile_append_of_all {p : Char → Bool} :
    ∀ (ds rest : List Char), (∀ c ∈ ds, p c = true) →
      (ds ++ rest).dropWhile p = rest.dropWhile p := by
  intro ds
  induction ds with
  | nil => intro rest _; simp
  | cons d ds ih =>
    intro rest h
    have hd : p d = true := h d (List.mem_cons_self _ _)
    simp [List.dropWhile_cons, hd, ih rest (fun c hc => h c (List.mem_cons_of_mem _ hc))]

/-- Every character produced by `digitCh` is a digit. -/
theorem digitCh_isDig (d : Nat) : isDig (digitCh d) = true := by
  have h : d % 10 = 0 ∨ d % 10 = 1 ∨ d % 10 = 2 ∨ d % 10 = 3 ∨ d % 10 = 4 ∨ d % 10 = 5 ∨
      d % 10 = 6 ∨ d % 10 = 7 ∨ d % 10 = 8 ∨ d % 10 = 9 := by omega
  rw [digitCh]
  rcases h with h | h | h | h | h | h | h | h | h | h <;> rw [h] <;> decide

/-- The decimal representation is non-empty and all digits. -/
theorem natDigitsAux_digits : ∀ (fuel n : Nat), n < fuel →
    natDigitsAux fuel n ≠ [] ∧ ∀ c ∈ natDigitsAux fuel n, isDig c = true := by
  intro fuel
  induction fuel with
  | zero => intro n h; exact absurd h (Nat.not_lt_zero n)
  | succ f ih =>
    intro n h
    rw [natDigitsAux]
    by_cases h10 : n < 10
    · rw [if_pos h10]
      refine ⟨by simp, ?_⟩
      intro c hc
      rw [List.mem_singleton] at hc
      subst hc
      exact digitCh_isDig n
    · rw [if_neg h10]
      have hn : n / 10 < f := by omega
      rcases ih (n / 10) hn with ⟨hne, hall⟩
      refine ⟨by simp, ?_⟩
      intro c hc
      rcases List.mem_append.mp hc with hc | hc
      · exact hall c hc
      · rw [List.mem_singleton] at hc
        subst hc
        exact digitCh_isDig _

/-- `natDigits` is never empty. -/
theorem natDigits_ne_nil (n : Nat) : natDigits n ≠ [] :=
  (natDigitsAux_digits (n + 1) n (by omega)).1

/-- `natDigits` consists of digit characters. -/
theorem natDigits_digits (n : Nat) : ∀ c ∈ natDigits n, isDig c = true :=
  (natDigitsAux_digits (n + 1) n (by omega)).2

/-- The idea-line regex matches a numbered line `"<digits>. Idea"` and
captures exactly `"Idea"`. -/
theorem ideaLineMatch_numbered_line (ds : List Char) (hne : ds ≠ [])
    (hdig : ∀ c ∈ ds, isDig c = true) :
    ideaLineMatch (ds ++ ('.' :: ' ' :: ("Idea").toList)) = some (("Idea").toList) := by
  have h1 : (ds ++ ('.' :: ' ' :: ("Idea").toList)).dropWhile wsp =
      ds ++ ('.' :: ' ' :: ("Idea").toList) := by
    cases hds : ds with
    | nil => exact absurd hds hne
    | cons d ds' =>
      have hd := hdig d (hds ▸ List.mem_cons_self _ _)
      rw [List.cons_append, List.dropWhile_cons, isDig_not_wsp hd]
      simp
  have h2 : (ds ++ ('.' :: ' ' :: ("Idea").toList)).takeWhile isDig = ds := by
    rw [takeWhile_append_of_all ds _ hdig,
      show (('.' :: ' ' :: ("Idea").toList)).takeWhile isDig = [] from by decide]
    simp
  have h3 : (ds ++ ('.' :: ' ' :: ("Idea").toList)).dropWhile isDig =
      '.' :: ' ' :: ("Idea").toList := by
    rw [dropWhile_append_of_all ds _ hdig]
    decide
  have h4 : ds.isEmpty = false := by
    cases hds : ds with
    | nil => exact absurd hds hne
    | cons _ _ => rfl
  unfold ideaLineMatch
  dsimp only
  rw [h1, h2, h3, h4]
  rfl

/-- `splitOnCh` on a separator-free string is the singleton of it. -/
theorem splitOnCh_no (c : Char) : ∀ l : List Char, (∀ x ∈ l, ¬(x = c)) →
    splitOnCh c l = [l] := by
  intro l
  induction l with
  | nil => intro _; rfl
  | cons x xs ih =>
    intro h
    simp only [splitOnCh]
    rw [if_neg (h x (List.mem_cons_self _ _)),
      ih (fun y hy => h y (List.mem_cons_of_mem _ hy))]

/-- `splitOnCh` peels off the piece before the first separator. -/
theorem splitOnCh_append (c : Char) : ∀ (a b : List Char), (∀ x ∈ a, ¬(x = c)) →
    splitOnCh c (a ++ c :: b) = a :: splitOnCh c b := by
  intro a
  induction a with
  | nil =>
    intro b _
    simp [splitOnCh]
  | cons x xs ih =>
    intro b h
    rw [List.cons_append]
    simp only [splitOnCh]
    rw [if_neg (h x (List.mem_cons_self _ _)),
      ih b (fun y hy => h y (List.mem_cons_of_mem _ hy))]

/-- `splitOnCh` is a left inverse of joining newline-free lines. -/
theorem splitOnCh_join (c : Char) : ∀ (ls : List (List Char)), ls ≠ [] →
    (∀ l ∈ ls, ∀ x ∈ l, ¬(x = c)) → splitOnCh c (joinWith [c] ls) = ls := by
  intro ls
  induction ls with
  | nil => intro h _; exact absurd rfl h
  | cons l ls ih =>
    intro _ h
    cases ls with
    | nil => exact splitOnCh_no c l (h l (List.mem_cons_self _ _))
    | cons l2 rest =>
      rw [show joinWith [c] (l :: l2 :: rest) = (l ++ [c]) ++ joinWith [c] (l2 :: rest)
          from rfl]
      rw [List.append_assoc,
        show [c] ++ joinWith [c] (l2 :: rest) = c :: joinWith [c] (l2 :: rest) from rfl]
      rw [splitOnCh_append c l _ (h l (List.mem_cons_self _ _))]
      rw [ih (by simp) (fun x hx => h x (List.mem_cons_of_mem _ hx))]

/-- If an element is the `getLast?`, it is a member. -/
theorem getLast?_mem' : ∀ (l : List (List Char)) (a : List Char),
    l.getLast? = some a → a ∈ l := by
  intro l
  induction l with
  | nil => intro a h; cases h
  | cons x xs ih =>
    intro a h
    cases xs with
    | nil =>
      rw [List.getLast?_singleton] at h
      cases h
      exact List.mem_cons_self _ _
    | cons y ys =>
      rw [List.getLast?_cons_cons] at h
      exact List.mem_cons_of_mem _ (ih a h)

/-- Mapping a function that fixes every element is the identity. -/
theorem map_stripCr_id : ∀ (ls : List (List Char)), (∀ l ∈ ls, stripCr l = l) →
    ls.map stripCr = ls := by
  intro ls
  induction ls with
  | nil => intro _; rfl
  | cons l ls ih =>
    intro h
    rw [List.map_cons, h l (List.mem_cons_self _ _),
      ih (fun x hx => h x (List.mem_cons_of_mem _ hx))]

/-- `linesOf` recovers the lines from their newline-join, provided no line
contains a newline, none is empty, and none ends in a carriage return. -/
theorem linesOf_join (ls : List (List Char)) (hne : ls ≠ [])
    (hnl : ∀ l ∈ ls, ∀ x ∈ l, ¬(x = '\n'))
    (hlast : ∀ l ∈ ls, l ≠ [])
    (hcr : ∀ l ∈ ls, stripCr l = l) :
    linesOf (joinWith (("\n").toList) ls) = ls := by
  unfold linesOf
  dsimp only
  rw [show (("\n").toList) = ['\n'] from rfl, splitOnCh_join '\n' ls hne hnl]
  rw [if_neg ?hcond]
  case hcond =>
    intro hlq
    exact hlast [] (getLast?_mem' ls [] hlq) rfl
  exact map_stripCr_id ls hcr

/-- A numbered idea line is unchanged by the carriage-return strip. -/
theorem stripCr_mkIdeaLine (n : Nat) : stripCr (mkIdeaLine n) = mkIdeaLine n := by
  unfold mkIdeaLine stripCr
  rw [List.reverse_append,
    show (('.' :: ' ' :: ("Idea").toList)).reverse = 'a' :: ('e' :: 'd' :: 'I' :: ' ' :: '.' :: [])
      from by decide,
    List.cons_append]
  rfl

/-- Every line of the numbered list matches the idea-line regex. -/
theorem mkIdeaLines_all_match (n : Nat) :
    ∀ l ∈ mkIdeaLines n, (ideaLineMatch l).isSome = true := by
  intro l hl
  rcases List.mem_map.mp hl with ⟨i, _, rfl⟩
  unfold mkIdeaLine
  rw [ideaLineMatch_numbered_line (natDigits (i + 1)) (natDigits_ne_nil _) (natDigits_digits _)]
  rfl

/-- Splitting the numbered-list text recovers exactly its lines. -/
theorem linesOf_mkIdeaText (n : Nat) (hn : 1 ≤ n) :
    linesOf (mkIdeaText n) = mkIdeaLines n := by
  unfold mkIdeaText
  refine linesOf_join (mkIdeaLines n) ?_ ?_ ?_ ?_
  · intro h
    have : (mkIdeaLines n).length = n := by simp [mkIdeaLines]
    rw [h] at this
    simp at this
    omega
  · intro l hl x hx
    rcases List.mem_map.mp hl with ⟨i, _, rfl⟩
    unfold mkIdeaLine at hx
    rcases List.mem_append.mp hx with hx | hx
    · exact isDig_not_nl (natDigits_digits _ x hx)
    · fin_cases hx <;> decide
  · intro l hl
    rcases List.mem_map.mp hl with ⟨i, _, rfl⟩
    unfold mkIdeaLine
    intro h
    exact natDigits_ne_nil (i + 1) (by simpa using List.append_eq_nil.mp h |>.1)
  · intro l hl
    rcases List.mem_map.mp hl with ⟨i, _, rfl⟩
    exact stripCr_mkIdeaLine (i + 1)

/-- The parse loop assigns sequential ids, whatever the lines contain. -/
theorem parseIdeasGo_ids : ∀ (lines : List (List Char)) (rev : List Idea) (id : Nat),
    (rev.map Idea.id).reverse = List.range' 1 rev.length → id = rev.length + 1 →
    ((parseIdeasGo rev id lines).map Idea.id).reverse =
      List.range' 1 (parseIdeasGo rev id lines).length := by
  intro lines
  induction lines with
  | nil => intro rev id h1 _; simpa [parseIdeasGo] using h1
  | cons line rest ih =>
    intro rev id h1 h2
    cases hm : ideaLineMatch line with
    | some g =>
      simp only [parseIdeasGo, hm]
      apply ih
      · rw [List.map_cons, List.reverse_cons, h1, h2]
        rw [List.length_cons, List.range'_concat]
        congr 1
        simp
        try omega
      · simp [h2]
    | none =>
      simp only [parseIdeasGo, hm]
      by_cases he : (trim line).isEmpty
      · rw [if_pos he]
        exact ih rev id h1 h2
      · rw [if_neg he]
        cases rev with
        | nil => exact ih [] id h1 h2
        | cons last others =>
          apply ih
          · simpa using h1
          · simpa using h2

/-- The ids of `parse_ideas` are `1, 2, 3, …` in order, always. -/
theorem parse_ideas_ids (text : List Char) :
    (parse_ideas text).map Idea.id = List.range' 1 (parse_ideas text).length := by
  unfold parse_ideas
  rw [List.map_reverse, List.length_reverse]
  exact parseIdeasGo_ids (linesOf text) [] 1 (by simp) (by simp)

/-- When every line matches the idea-line regex, each line contributes one
idea. -/
theorem parseIdeasGo_length_all_match :
    ∀ (lines : List (List Char)) (rev : List Idea) (id : Nat),
      (∀ l ∈ lines, (ideaLineMatch l).isSome = true) →
      (parseIdeasGo rev id lines).length = rev.length + lines.length := by
  intro lines
  induction lines with
  | nil => intro rev id _; simp [parseIdeasGo]
  | cons line rest ih =>
    intro rev id hall
    cases hm : ideaLineMatch line with
    | none =>
      have := hall line (List.mem_cons_self _ _)
      rw [hm] at this
      cases this
    | some g =>
      simp only [parseIdeasGo, hm]
      rw [ih _ _ (fun l hl => hall l (List.mem_cons_of_mem _ hl))]
      simp
      omega

/-- C8: idea identifiers are assigned sequentially from 1 in order of
appearance for every input text; and for every `n` between 1 and 50, parsing
the `n`-line numbered list yields exactly `n` ideas with ids `1..n` in
order. -/
theorem c8_sequential_ids :
    (∀ text, (parse_ideas text).map Idea.id = List.range' 1 (parse_ideas text).length) ∧
    (∀ n, 1 ≤ n → n ≤ 50 →
      (parse_ideas (mkIdeaText n)).length = n ∧
      (parse_ideas (mkIdeaText n)).map Idea.id = List.range' 1 n) := by
  refine ⟨parse_ideas_ids, ?_⟩
  intro n h1 _
  have hlen : (parse_ideas (mkIdeaText n)).length = n := by
    unfold parse_ideas
    rw [List.length_reverse, linesOf_mkIdeaText n h1,
      parseIdeasGo_length_all_match _ _ _ (mkIdeaLines_all_match n)]
    simp [mkIdeaLines]
  exact ⟨hlen, by rw [parse_ideas_ids (mkIdeaText n), hlen]⟩

/-- C8 witness: the numbered-list half of the claim evaluated at `n = 3`. -/
theorem c8_sequential_ids_witness :
    (parse_ideas (mkIdeaText 3)).length = 3 ∧
    (parse_ideas (mkIdeaText 3)).map Idea.id = List.range' 1 3 :=
  c8_sequential_ids.2 3 (by decide) (by decide)

end GeminiMcp
